import Mathlib

/-!
# Verification of the NexusLB two-tier scheduling core

Shallow embedding of the Nexus dispatcher (`src/nexus/dispatcher/dispatcher.cpp`)
and global scheduler (`nexus_scheduler/scheduler.cpp`), together with proofs
about the Deficit-Round-Robin route table, the per-query dispatch path, the
beacon/epoch control loop, model placement, and registration handling.

C++ `double` values are embedded as `ℚ` (exact arithmetic on the literals the
code uses); machine maps (`std::unordered_map`) are embedded as association
lists with the exact `emplace` / `erase` / `operator[]` semantics of the code.
Out-of-bounds vector accesses, failed `CHECK`s and thrown exceptions (`.at` on
a missing key) are modelled as `none` results: those are abnormal terminations
of the C++ code, not values returned to the caller.
-/

namespace NexusLB

attribute [local semireducible] Rat.add Rat.sub Rat.mul

/-- Control status codes from `nexus/proto/control.pb.h` (the subset the
embedded operations produce). -/
inductive CtrlStatus
  | ctrlOk
  | modelNotFound
  | notEnoughBackends
  | frontendNodeIdConflict
  | backendNodeIdConflict
  | serverNotRegistered
  | invalidLoadModel
deriving DecidableEq, Repr

/-- Association-list embedding of `std::unordered_map<uint32_t, double>`. -/
abbrev QMap := List (Nat × ℚ)

/-- `map.find(k)` / `map.at(k)`: first entry with key `k`, if any. -/
def lookupQ (m : QMap) (k : Nat) : Option ℚ :=
  (m.find? (fun p => p.1 == k)).map (fun p => p.2)

/-- `map[k] = v` on a key already present: overwrite the entry. -/
def setQ (m : QMap) (k : Nat) (v : ℚ) : QMap :=
  m.map (fun p => if p.1 == k then (k, v) else p)

/-- `map.emplace(k, v)`: insert only if `k` is absent; never overwrites. -/
def emplaceQ (m : QMap) (k : Nat) (v : ℚ) : QMap :=
  if (lookupQ m k).isSome then m else m ++ [(k, v)]

/-- `map.erase(k)`: drop every entry with key `k`. -/
def eraseQ (m : QMap) (k : Nat) : QMap :=
  m.filter (fun p => p.1 != k)

/-- The exact value of `std::numeric_limits<double>::max()` (the integer
`2 ^ 1024 - 2 ^ 971`, written out so it evaluates by kernel reduction), used
by `ModelRoute::Update` as the seed of the `min_rate_` fold. -/
def dblMax : ℚ := mkRat 179769313486231570814527423731704356798070567525844996598917476803157260780028538760589558632766878171540458953514382464234321326889464182768467546703537516986049910576551282076245490090389328944075868508455133942304583236903222948165808559332123348274797826204144723168738177180919299881250404026184124858368 1

/-- `std::max(a, b)`: returns `b` exactly when `a < b`. -/
def stdMax (a b : ℚ) : ℚ := if a < b then b else a

/-- `std::min(a, b)`: returns `b` exactly when `b < a`. -/
def stdMin (a b : ℚ) : ℚ := if b < a then b else a

/-- `std::fabs`. -/
def fabsQ (q : ℚ) : ℚ := if q < 0 then -q else q

/-- One entry of `ModelRouteProto::backend_rate`: a backend (identified by its
`BackendInfo::node_id`) and its assigned throughput. -/
structure BackendRate where
  nodeId : Nat
  throughput : ℚ
deriving DecidableEq, Repr

/-- Wire format `ModelRouteProto` (`model_session_id` + `backend_rate`). -/
structure ModelRouteProto where
  modelSessionId : String
  backendRate : List BackendRate
deriving DecidableEq, Repr

/-- The dispatcher's per-session DRR route table (`class ModelRoute` in
`dispatcher.cpp`): backend list, per-backend quanta, current DRR index,
minimum rate and total throughput. -/
structure ModelRoute where
  modelSessionId : String := ""
  backends : List BackendRate := []
  backendQuanta : QMap := []
  currentDrrIndex : Nat := 0
  minRate : ℚ := 0
  totalThroughput : ℚ := 0
deriving DecidableEq, Repr

/-- Lines 359-361 of `ModelRoute::Update`: the node id saved before the
route is replaced (`backends_.empty() ? 0 :
backends_[current_drr_index_].info().node_id()`; an out-of-range index on a
non-empty list reads garbage in C++, `0` here — every theorem below that
touches it assumes the index in range, as `Update` itself guarantees). -/
def savedDrrBackendId (r : ModelRoute) : Nat :=
  if r.backends.isEmpty then 0
  else ((r.backends[r.currentDrrIndex]?).map (fun b => b.nodeId)).getD 0

/-- `ModelRoute::Update` (`dispatcher.cpp:356-407`): remember the node id at
`current_drr_index_`, replace the backend list, recompute `min_rate_` (a fold
of `std::min` seeded with `DBL_MAX`) and `total_throughput_`, `emplace` a
quantum equal to its rate for every backend of the new route (`emplace` keeps
the old value for keys already present), erase quanta of backends that left,
and restore `current_drr_index_` to the index of the remembered backend if it
is still present, else clamp it modulo the new size (0 for an empty route). -/
def ModelRoute.Update (r : ModelRoute) (route : ModelRouteProto) : ModelRoute :=
  let currentDrrBackendId : Nat := savedDrrBackendId r
  let bs := route.backendRate
  let minRate := bs.foldl (fun m b => stdMin m b.throughput) dblMax
  let total := bs.foldl (fun t b => t + b.throughput) 0
  let quanta1 := bs.foldl (fun q b => emplaceQ q b.nodeId b.throughput) r.backendQuanta
  let quanta2 := quanta1.filter (fun p => bs.any (fun b => b.nodeId == p.1))
  let idx :=
    match bs.findIdx? (fun b => b.nodeId == currentDrrBackendId) with
    | some i => i
    | none => if bs.isEmpty then 0 else r.currentDrrIndex % bs.length
  { modelSessionId := route.modelSessionId
    backends := bs
    backendQuanta := quanta2
    currentDrrIndex := idx
    minRate := minRate
    totalThroughput := total }

/-- The loop body of `ModelRoute::GetBackend` (`dispatcher.cpp:409-424`),
with the loop counter `i` explicit.  Per iteration: read
`backends_[current_drr_index_]` (out of bounds is undefined behaviour:
`none`), read its quantum with `.at` (a missing key throws: `none`); if the
quantum is at least `min_rate_` subtract `min_rate_` and return the backend,
else add the backend's rate to its quantum, advance the index modulo the list
size, and re-enter the loop unless `CHECK_LE(i, backends_.size())` fails
(`none`).  Returns the chosen node id, the new quanta, the new index and the
iteration number that returned.

The structural `fuel` argument only makes the recursion evident to Lean: the
source loop is bounded by its own `CHECK` on `i`, and starting from
`fuel = |backends| + 2, i = 0` (as `GetBackend` does) the `fuel = 0` case is
unreachable because the guard `i ≤ |backends|` stops first. -/
def getBackendGo (bs : List BackendRate) (minRate : ℚ) :
    Nat → QMap → Nat → Nat → Option (Nat × QMap × Nat × Nat)
  | 0, _, _, _ => none
  | fuel + 1, quanta, idx, i =>
    match bs[idx]? with
    | none => none
    | some b =>
      match lookupQ quanta b.nodeId with
      | none => none
      | some q =>
        if minRate ≤ q then
          some (b.nodeId, setQ quanta b.nodeId (q - minRate), idx, i)
        else
          if i ≤ bs.length then
            getBackendGo bs minRate fuel (setQ quanta b.nodeId (q + b.throughput))
              ((idx + 1) % bs.length) (i + 1)
          else none

/-- `ModelRoute::GetBackend`: run the DRR loop from the stored state; on
success return the selected backend's node id and the mutated route. -/
def ModelRoute.GetBackend (r : ModelRoute) : Option (Nat × ModelRoute) :=
  (getBackendGo r.backends r.minRate (r.backends.length + 2) r.backendQuanta
      r.currentDrrIndex 0).map
    (fun out => (out.1, { r with backendQuanta := out.2.1, currentDrrIndex := out.2.2.1 }))

/-! ## Dispatcher (`Dispatcher` in `dispatcher.cpp`) -/

/-- The slice of `QueryProto` the dispatch path reads: the model session
string id and the `frontend_recv_ns` clock stamp. -/
structure Query where
  modelSessionId : String
  frontendRecvNs : Int
deriving DecidableEq, Repr

/-- The fields of `BatchPlanProto` that `Dispatcher::DispatchRequest` fills
in.  `expected_finish_time_ns` is computed in `double` arithmetic in the code
(`GetForwardLatency(1) * 1000` added to an integer), so it is kept as `ℚ`
here. -/
structure BatchPlan where
  planId : Nat
  modelSessionId : String
  globalId : Nat
  execTimeNs : Int
  deadlineNs : Int
  expectedFinishTimeNs : ℚ
deriving DecidableEq, Repr

/-- The dispatcher state touched by the embedded operations: the DRR route
table `models_`, the registered backend ids (`backends_`), the registered
frontend ids (`frontends_`), and the two atomic counters. -/
structure DispatcherState where
  models : List (String × ModelRoute) := []
  backendIds : List Nat := []
  frontendIds : List Nat := []
  nextGlobalId : Nat := 0
  nextPlanId : Nat := 0
deriving DecidableEq, Repr

/-- `models_.find(session_id)`. -/
def findRoute (models : List (String × ModelRoute)) (sid : String) :
    Option ModelRoute :=
  (models.find? (fun p => p.1 == sid)).map (fun p => p.2)

/-- Store a mutated route back under its session id. -/
def storeRoute (models : List (String × ModelRoute)) (sid : String)
    (r : ModelRoute) : List (String × ModelRoute) :=
  models.map (fun p => if p.1 == sid then (sid, r) else p)

/-- External inputs of one `DispatchRequest` call: the clock value used for
`exec_time`, `ParseModelSession(...).latency_sla()` (microseconds, read off
the session string id), and the profile oracle
`GetInstanceInfo(id)->profile().GetForwardLatency(1)` (microseconds, per
backend and session). -/
structure DispatchEnv where
  nowNs : Int
  parseSlaUs : String → Int
  fwdLatencyUs : Nat → String → ℚ

/-- `Dispatcher::DispatchRequest` (`dispatcher.cpp:259-340`).  Allocates a
fresh `global_id`; looks up the route for the session id, replying
`MODEL_NOT_FOUND` if absent; otherwise runs DRR (`GetBackend`; its abnormal
termination on an empty route propagates as `none`), sets status `CTRL_OK`,
and if the chosen backend id is registered builds the `BatchPlan`
(`exec_time = now + 5 ms`, `deadline = frontend_recv + sla·1000 ns`,
`expected_finish = exec_time + GetForwardLatency(1)·1000`) with a fresh
`plan_id` and enqueues it; if the backend delegate is missing the plan is
dropped (status stays `CTRL_OK`, nothing enqueued).  Returns the reply
status, the enqueued plan paired with the backend it was sent to (if any),
and the new state. -/
def Dispatcher.DispatchRequest (env : DispatchEnv) (st : DispatcherState)
    (q : Query) :
    Option (CtrlStatus × Option (Nat × BatchPlan) × DispatcherState) :=
  let globalId := st.nextGlobalId
  let st1 := { st with nextGlobalId := st.nextGlobalId + 1 }
  match findRoute st1.models q.modelSessionId with
  | none => some (CtrlStatus.modelNotFound, none, st1)
  | some route =>
    match route.GetBackend with
    | none => none
    | some (backendId, route') =>
      let st2 := { st1 with models := storeRoute st1.models q.modelSessionId route' }
      if st2.backendIds.contains backendId then
        let planId := st2.nextPlanId
        let st3 := { st2 with nextPlanId := st2.nextPlanId + 1 }
        let execTimeNs := env.nowNs + 5000000
        let deadlineNs := q.frontendRecvNs + env.parseSlaUs q.modelSessionId * 1000
        let finish : ℚ := (execTimeNs : ℚ) + env.fwdLatencyUs backendId q.modelSessionId * 1000
        some (CtrlStatus.ctrlOk,
          some (backendId,
            { planId := planId, modelSessionId := q.modelSessionId,
              globalId := globalId, execTimeNs := execTimeNs,
              deadlineNs := deadlineNs, expectedFinishTimeNs := finish }),
          st3)
      else
        some (CtrlStatus.ctrlOk, none, st2)

/-- Node type tag of a `RegisterRequest`. -/
inductive NodeType
  | frontend
  | backend
  | unknown
deriving DecidableEq, Repr

/-- `Dispatcher::HandleRegister` (`dispatcher.cpp:426-535`), restricted to
the registered-node maps: a frontend (resp. backend) whose node id is already
present gets `CTRL_FRONTEND_NODE_ID_CONFLICT`
(resp. `CTRL_BACKEND_NODE_ID_CONFLICT`) and the maps are left untouched;
otherwise the node is inserted and the reply is `CTRL_OK`.  An unknown node
type replies `CTRL_SERVER_NOT_REGISTERED`. -/
def Dispatcher.HandleRegister (st : DispatcherState) (nodeType : NodeType)
    (nodeId : Nat) : CtrlStatus × DispatcherState :=
  match nodeType with
  | NodeType.frontend =>
    if st.frontendIds.contains nodeId then
      (CtrlStatus.frontendNodeIdConflict, st)
    else
      (CtrlStatus.ctrlOk, { st with frontendIds := st.frontendIds ++ [nodeId] })
  | NodeType.backend =>
    if st.backendIds.contains nodeId then
      (CtrlStatus.backendNodeIdConflict, st)
    else
      (CtrlStatus.ctrlOk, { st with backendIds := st.backendIds ++ [nodeId] })
  | NodeType.unknown => (CtrlStatus.serverNotRegistered, st)

/-! ## Global scheduler (`Scheduler` in `nexus_scheduler/scheduler.cpp`) -/

/-- Profile/placement result carried around by the scheduler: the fields of
`InstanceInfo` the scheduler reads (`throughput` directly, `GetWeight()` as
`weight`). -/
structure InstanceInfo where
  throughput : ℚ := 0
  weight : ℚ := 0
deriving DecidableEq, Repr

/-- The scheduler's `SessionInfo`: primary/secondary session ids, the
assignment view `backend_weights`, per-frontend reported rates (`workloads`,
the current `rate()` of each counter), the bounded `rps_history`,
`unassigned_workload`, the `(frontend, session)` subscriber pairs, and the
static-workload flag. -/
structure SessionInfo where
  modelSessions : List String := []
  backendWeights : QMap := []
  workloads : QMap := []
  rpsHistory : List ℚ := []
  unassignedWorkload : ℚ := 0
  subscribers : List (Nat × String) := []
  hasStaticWorkload : Bool := false
deriving DecidableEq, Repr

/-- Modelled from the spec: `SessionInfo::TotalThroughput` is declared in a
scheduler header outside `src/`; per the spec's invariant
"`∑ throughputs(S)`" and the `backend_weights` data model it sums the
session's assigned backend weights. -/
def SessionInfo.TotalThroughput (s : SessionInfo) : ℚ :=
  s.backendWeights.foldl (fun a p => a + p.2) 0

/-- Phase 2 of `Scheduler::BeaconCheck` (`scheduler.cpp:510-527`) for one
session: aggregate `rps = Σ max(0, rate)` over the per-frontend workload
counters, append it to `rps_history` unless the history is empty and the
sample is zero (leading-zero suppression), then pop the front if the length
exceeds `history_len_`. -/
def beaconAggregate (len : Nat) (s : SessionInfo) : SessionInfo :=
  let rps := s.workloads.foldl (fun acc w => acc + stdMax 0 w.2) 0
  let hist1 :=
    if 0 < s.rpsHistory.length ∨ 0 < rps then s.rpsHistory ++ [rps]
    else s.rpsHistory
  let hist2 := if len < hist1.length then hist1.tail else hist1
  { s with rpsHistory := hist2 }

/-- Phase 4 of `Scheduler::BeaconCheck` (`scheduler.cpp:532-547`) for one
session: sessions with fewer than `history_len_` samples are skipped;
otherwise `estimate_rps = max(rps_history[history_len_-1], 0.1)` triggers an
epoch when it is below `0.8` or above `1.1` times the total throughput. -/
def sessionTrigger (len : Nat) (s : SessionInfo) : Bool :=
  if s.rpsHistory.length < len then false
  else
    let est := stdMax (s.rpsHistory.getD (len - 1) 0) (mkRat 1 10)
    let tp := s.TotalThroughput
    decide (est < tp * mkRat 8 10 ∨ tp * mkRat 11 10 < est)

/-- `Scheduler::BeaconCheck` (`scheduler.cpp:506-548`) on the session table:
update every session's rate history, then report whether any session
triggers an epoch. -/
def Scheduler.BeaconCheck (len : Nat) (tbl : List (String × SessionInfo)) :
    List (String × SessionInfo) × Bool :=
  let tbl' := tbl.map (fun p => (p.1, beaconAggregate len p.2))
  (tbl', tbl'.any (fun p => sessionTrigger len p.2))

/-- The `BackendDelegate` fields the scheduler reads or writes in the
embedded operations: node id, `workload_id()` (≥ 0 when statically pinned),
`IsIdle()`, and the committed per-session instances (`LoadModel`). -/
structure BackendMeta where
  nodeId : Nat
  workloadId : Int := -1
  idle : Bool := true
  loadedModels : List (String × InstanceInfo) := []
deriving DecidableEq, Repr

/-- Modelled from the spec: `BackendDelegate::PrepareLoadModel(session, rate)
→ (InstanceInfo, occupancy) | ⊥` is a hypothetical placement computed by the
backend delegate, whose implementation is outside `src/`.  It is passed in as
an oracle, keyed by backend node id and request rate (the session under
placement is fixed for one scheduler operation). -/
abbrev PrepareOracle := Nat → ℚ → Option (InstanceInfo × ℚ)

/-- A candidate considered by `FindBestBackend`: the backend together with
the `InstanceInfo` and occupancy that `PrepareLoadModel` returned. -/
structure FbbCand where
  nodeId : Nat
  inst : InstanceInfo
  occupancy : ℚ
deriving DecidableEq, Repr

/-- The scan loop of `Scheduler::FindBestBackend` (`scheduler.cpp:463-489`):
walk the backend pool, skipping backends in `skips`, statically pinned
backends (`workload_id ≥ 0`), non-idle backends when `|rate| < 1e-3`, and
backends whose `PrepareLoadModel` fails; track the first candidate attaining
the maximum throughput and the first attaining the maximum occupancy (strict
`>` comparisons keep the earlier candidate on ties). -/
def fbbScan (prepare : PrepareOracle) (rate : ℚ) (skips : List Nat) :
    List BackendMeta → Option FbbCand → Option FbbCand →
    Option FbbCand × Option FbbCand
  | [], maxTp, maxOcc => (maxTp, maxOcc)
  | b :: rest, maxTp, maxOcc =>
    if skips.contains b.nodeId then fbbScan prepare rate skips rest maxTp maxOcc
    else if 0 ≤ b.workloadId then fbbScan prepare rate skips rest maxTp maxOcc
    else if fabsQ rate < mkRat 1 1000 ∧ b.idle = false then
      fbbScan prepare rate skips rest maxTp maxOcc
    else
      match prepare b.nodeId rate with
      | none => fbbScan prepare rate skips rest maxTp maxOcc
      | some pr =>
        let c : FbbCand := ⟨b.nodeId, pr.1, pr.2⟩
        let maxTp' :=
          match maxTp with
          | none => some c
          | some m => if m.inst.throughput < pr.1.throughput then some c else some m
        let maxOcc' :=
          match maxOcc with
          | none => some c
          | some m => if m.occupancy < pr.2 then some c else some m
        fbbScan prepare rate skips rest maxTp' maxOcc'

/-- `Scheduler::FindBestBackend` (`scheduler.cpp:455-504`): run the scan and
select by the final tie-break: for `|rate| < 1e-3` the maximum-throughput
candidate; otherwise the maximum-throughput candidate if even it cannot reach
`rate`, else the maximum-occupancy candidate (when no candidate exists both
trackers are empty and the result is null either way). -/
def Scheduler.FindBestBackend (prepare : PrepareOracle)
    (backends : List BackendMeta) (rate : ℚ) (skips : List Nat) :
    Option FbbCand :=
  let s := fbbScan prepare rate skips backends none none
  if fabsQ rate < mkRat 1 1000 then s.1
  else
    match s.1 with
    | none => none
    | some m => if m.inst.throughput < rate then s.1 else s.2

/-- The candidates `FindBestBackend` considers, as a list: exactly the
backends surviving its skip conditions, paired with their
`PrepareLoadModel` results.  (Stated from the claim; the theorems relate the
source-faithful scan above to selections over this list.) -/
def fbbCandidates (prepare : PrepareOracle) (rate : ℚ) (skips : List Nat)
    (backends : List BackendMeta) : List FbbCand :=
  backends.filterMap (fun b =>
    if skips.contains b.nodeId then none
    else if 0 ≤ b.workloadId then none
    else if fabsQ rate < mkRat 1 1000 ∧ b.idle = false then none
    else (prepare b.nodeId rate).map (fun pr => ⟨b.nodeId, pr.1, pr.2⟩))

/-- Result of the `while (workload > 1e-3)` placement loop of
`Scheduler::LoadModel`. `outOfFuel` is the artifact of the fuelled
recursion; with fuel `|backends| + 1` it is unreachable because every
successful step adds a fresh backend to the skip set. -/
inductive LoadLoopResult
  | outOfFuel
  | noBackend
  | ok (acc : List (Nat × InstanceInfo))
deriving DecidableEq, Repr

/-- The placement loop of `Scheduler::LoadModel` (`scheduler.cpp:132-144`):
while more than `1e-3` rps remain, find a best backend excluding those
already used; fail with `NOT_ENOUGH_BACKENDS` if none, else record the
assignment, add the backend to the skip set and subtract its throughput. -/
def loadModelLoop (prepare : PrepareOracle) (backends : List BackendMeta) :
    Nat → ℚ → List Nat → List (Nat × InstanceInfo) → LoadLoopResult
  | 0, _, _, _ => LoadLoopResult.outOfFuel
  | fuel + 1, workload, used, acc =>
    if mkRat 1 1000 < workload then
      match Scheduler.FindBestBackend prepare backends workload used with
      | none => LoadLoopResult.noBackend
      | some c =>
        loadModelLoop prepare backends fuel (workload - c.inst.throughput)
          (used ++ [c.nodeId]) (acc ++ [(c.nodeId, c.inst)])
    else LoadLoopResult.ok acc

/-- The scheduler state touched by the embedded operations. -/
structure SchedulerState where
  frontends : List Nat := []
  backends : List BackendMeta := []
  sessionTable : List (String × SessionInfo) := []
  frontendSubscriptions : List (Nat × String) := []
deriving DecidableEq, Repr

/-- Modelled from the spec: `BackendDelegate::LoadModel(inst)` (outside
`src/`) commits a previously prepared placement on the backend; the backend
then holds the instance and is no longer idle. -/
def commitLoad (backends : List BackendMeta) (nodeId : Nat)
    (sessionId : String) (inst : InstanceInfo) : List BackendMeta :=
  backends.map (fun b =>
    if b.nodeId == nodeId then
      { b with loadedModels := b.loadedModels ++ [(sessionId, inst)], idle := false }
    else b)

/-- `Scheduler::LoadModel` (`scheduler.cpp:80-164`).  Early returns: unknown
model (`MODEL_NOT_FOUND`), unregistered frontend
(`CTRL_SERVER_NOT_REGISTERED`), already-loaded session (subscribe the
frontend, `CTRL_OK`).  Otherwise run the placement loop (`FindBestBackend`
once for `workload == 0`, else the growing-skip-set loop); if placement fails
return `NOT_ENOUGH_BACKENDS` leaving the state untouched; on success commit
every assignment (`LoadModel` on the backend, `backend_weights.emplace` of
the instance weight), create the session-table entry and subscribe the
frontend. -/
def Scheduler.LoadModel (modelInfoExists : String → Bool)
    (prepare : PrepareOracle) (st : SchedulerState) (nodeId : Nat)
    (sessionId : String) (workload : ℚ) :
    Option (CtrlStatus × SchedulerState) :=
  if modelInfoExists sessionId = false then
    some (CtrlStatus.modelNotFound, st)
  else if st.frontends.contains nodeId = false then
    some (CtrlStatus.serverNotRegistered, st)
  else if (st.sessionTable.find? (fun p => p.1 == sessionId)).isSome then
    let tbl := st.sessionTable.map (fun p =>
      if p.1 == sessionId then
        (p.1, { p.2 with subscribers := p.2.subscribers ++ [(nodeId, sessionId)] })
      else p)
    some (CtrlStatus.ctrlOk,
      { st with sessionTable := tbl,
                frontendSubscriptions := st.frontendSubscriptions ++ [(nodeId, sessionId)] })
  else
    let placed : LoadLoopResult :=
      if workload = 0 then
        match Scheduler.FindBestBackend prepare st.backends workload [] with
        | none => LoadLoopResult.noBackend
        | some c => LoadLoopResult.ok [(c.nodeId, c.inst)]
      else loadModelLoop prepare st.backends (st.backends.length + 1) workload [] []
    match placed with
    | LoadLoopResult.outOfFuel => none
    | LoadLoopResult.noBackend => some (CtrlStatus.notEnoughBackends, st)
    | LoadLoopResult.ok acc =>
      let backends' := acc.foldl
        (fun bs a => commitLoad bs a.1 sessionId a.2) st.backends
      let weights := acc.foldl (fun w a => emplaceQ w a.1 a.2.weight) []
      let info : SessionInfo :=
        { modelSessions := [sessionId], backendWeights := weights,
          subscribers := [(nodeId, sessionId)] }
      some (CtrlStatus.ctrlOk,
        { st with backends := backends',
                  sessionTable := st.sessionTable ++ [(sessionId, info)],
                  frontendSubscriptions := st.frontendSubscriptions ++ [(nodeId, sessionId)] })

/-- `Scheduler::RegisterFrontend` (`scheduler.cpp:176-182`):
`CHECK(frontends_.find(id) == end())` aborts the process on a duplicate node
id (modelled as `none`); otherwise the frontend is added to the map.  No
reply status exists on this path. -/
def Scheduler.RegisterFrontend (st : SchedulerState) (nodeId : Nat) :
    Option SchedulerState :=
  if st.frontends.contains nodeId then none
  else some { st with frontends := st.frontends ++ [nodeId] }

/-- `Scheduler::RegisterBackend` (`scheduler.cpp:184-192`):
`CHECK(backends_.find(id) == end())` aborts on a duplicate node id (`none`);
otherwise the backend is inserted and `Scheduler::AddBackend` runs.
`AddBackend` (`scheduler.cpp:212-303`) is passed in as a state transformer:
the claims settled here only exercise the duplicate path, which aborts before
it. -/
def Scheduler.RegisterBackend (addBackend : SchedulerState → Nat → SchedulerState)
    (st : SchedulerState) (b : BackendMeta) : Option SchedulerState :=
  if st.backends.any (fun x => x.nodeId == b.nodeId) then none
  else some (addBackend { st with backends := st.backends ++ [b] } b.nodeId)

/-! ## `Scheduler::EpochSchedule` release pass -/

/-- Weight-descending order on `(backend, weight)` pairs, the comparator
`a.second > b.second` of `scheduler.cpp:603-607`. -/
def wge (a b : Nat × ℚ) : Prop := b.2 ≤ a.2

instance : DecidableRel wge := fun a b => inferInstanceAs (Decidable (b.2 ≤ a.2))

instance : IsTotal (Nat × ℚ) wge := ⟨fun a b => le_total b.2 a.2⟩

instance : IsTrans (Nat × ℚ) wge := ⟨fun _ _ _ h1 h2 => le_trans h2 h1⟩

/-- `std::sort(adjust_backends, a.second > b.second)`: sort the adjustable
backends by weight, descending (ties in unspecified order in C++; a
deterministic insertion sort here). -/
def sortWeightDesc (l : List (Nat × ℚ)) : List (Nat × ℚ) :=
  List.insertionSort wge l

/-- Modelled from the spec:
`BackendDelegate::UpdateModelThroughput(session, rate) → actual_throughput`
and the subsequent `GetModelWeight(session)` live outside `src/`.  The
oracle maps (backend id, requested rate) to (actual new throughput, new
recorded weight). -/
abbrev UpdThroughputOracle := Nat → ℚ → ℚ × ℚ

/-- The release walk of `Scheduler::EpochSchedule` (`scheduler.cpp:608-623`)
over the sorted adjustable backends, carrying the remaining `estimate_rps`
and the session's `backend_weights` map, and collecting the backends whose
model is fully unloaded: if the remainder is below `1e-3`, `UnloadModel` and
erase the weight; else if the backend's weight exceeds the remainder, call
`UpdateModelThroughput(session, remainder)`, refresh the recorded weight and
subtract the actual new throughput; else just subtract the weight. -/
def releaseWalk (upd : UpdThroughputOracle) :
    ℚ → QMap → List (Nat × ℚ) → ℚ × QMap × List Nat
  | est, weights, [] => (est, weights, [])
  | est, weights, (b, w) :: rest =>
    if est < mkRat 1 1000 then
      let r := releaseWalk upd est (eraseQ weights b) rest
      (r.1, r.2.1, b :: r.2.2)
    else if est < w then
      let nt := upd b est
      releaseWalk upd (est - nt.1) (setQ weights b nt.2) rest
    else releaseWalk upd (est - w) weights rest

/-- The full release pass for one session (`scheduler.cpp:590-624`): statics
(`workload_id ≥ 0`, via `isStatic`) keep their weight but are subtracted from
`estimate_rps` up front; the adjustable backends are sorted weight-descending
and walked by `releaseWalk`. -/
def epochReleaseSession (upd : UpdThroughputOracle) (isStatic : Nat → Bool)
    (estimateRps : ℚ) (weights : QMap) : ℚ × QMap × List Nat :=
  let est1 := estimateRps -
    (weights.filter (fun p => isStatic p.1)).foldl (fun a p => a + p.2) 0
  let adjust := weights.filter (fun p => isStatic p.1 = false)
  releaseWalk upd est1 weights (sortWeightDesc adjust)

/-- Which branch of the per-session epoch adjustment
(`scheduler.cpp:558-666`) runs: sessions with a short history are skipped;
with `estimate_rps = max(rps_history.back(), 0.1)`, the release pass runs
when `estimate_rps < 0.97 · throughput`, the grow pass when
`estimate_rps > throughput`, and nothing otherwise. -/
inductive EpochBranch
  | skipped
  | release (result : ℚ × QMap × List Nat)
  | grow
deriving DecidableEq, Repr

/-- The branch selection and (for the release case) the release pass of one
session's epoch adjustment. -/
def epochSessionBranch (upd : UpdThroughputOracle) (isStatic : Nat → Bool)
    (len : Nat) (s : SessionInfo) : EpochBranch :=
  if s.rpsHistory.length < len then EpochBranch.skipped
  else
    let est := stdMax (s.rpsHistory.getD (s.rpsHistory.length - 1) 0) (mkRat 1 10)
    let tp := s.TotalThroughput
    if est < tp * mkRat 97 100 then
      EpochBranch.release (epochReleaseSession upd isStatic est s.backendWeights)
    else if tp < est then EpochBranch.grow
    else EpochBranch.skipped

/-! ## Lemmas about the association-list map embedding -/


theorem lookupQ_cons (p : Nat × ℚ) (m : QMap) (k : Nat) :
    lookupQ (p :: m) k = if p.1 = k then some p.2 else lookupQ m k := by
  by_cases h : p.1 = k
  · simp [lookupQ, List.find?_cons_of_pos, h]
  · simp [lookupQ, List.find?_cons_of_neg, h]

theorem lookupQ_append (m m' : QMap) (k : Nat) :
    lookupQ (m ++ m') k = (lookupQ m k).or (lookupQ m' k) := by
  simp only [lookupQ, List.find?_append]
  cases List.find? (fun p => p.1 == k) m <;> simp

theorem setQ_cons (p : Nat × ℚ) (m : QMap) (k : Nat) (v : ℚ) :
    setQ (p :: m) k v = (if p.1 = k then (k, v) else p) :: setQ m k v := by
  simp only [setQ, List.map_cons]
  congr 1
  by_cases h : p.1 = k <;> simp [h]

theorem lookupQ_setQ_isSome (m : QMap) (k k' : Nat) (v : ℚ) :
    (lookupQ (setQ m k v) k').isSome = (lookupQ m k').isSome := by
  induction m with
  | nil => simp [setQ, lookupQ]
  | cons p t ih =>
    rw [setQ_cons]
    by_cases hp : p.1 = k
    · rw [if_pos hp, lookupQ_cons, lookupQ_cons]
      by_cases h' : k = k'
      · rw [if_pos h', if_pos (by omega : p.1 = k')]
        rfl
      · rw [if_neg h', if_neg (by omega : ¬ p.1 = k'), ih]
    · rw [if_neg hp, lookupQ_cons, lookupQ_cons]
      by_cases h' : p.1 = k'
      · rw [if_pos h', if_pos h']
      · rw [if_neg h', if_neg h', ih]

theorem lookupQ_setQ_self (m : QMap) (k : Nat) (v : ℚ)
    (h : (lookupQ m k).isSome) : lookupQ (setQ m k v) k = some v := by
  induction m with
  | nil => simp [lookupQ] at h
  | cons p t ih =>
    rw [setQ_cons]
    by_cases hp : p.1 = k
    · rw [if_pos hp, lookupQ_cons]; simp
    · rw [if_neg hp, lookupQ_cons, if_neg hp]
      rw [lookupQ_cons, if_neg hp] at h
      exact ih h

theorem lookupQ_setQ_ne (m : QMap) (k k' : Nat) (v : ℚ) (h : k' ≠ k) :
    lookupQ (setQ m k v) k' = lookupQ m k' := by
  induction m with
  | nil => simp [setQ, lookupQ]
  | cons p t ih =>
    rw [setQ_cons]
    by_cases hp : p.1 = k
    · rw [if_pos hp, lookupQ_cons, lookupQ_cons]
      rw [if_neg (by omega : ¬ (k, v).1 = k'), if_neg (by omega : ¬ p.1 = k')]
      exact ih
    · rw [if_neg hp, lookupQ_cons, lookupQ_cons]
      by_cases h' : p.1 = k' <;> simp [h', ih]

theorem setQ_nonneg (m : QMap) (k : Nat) (v : ℚ) (hv : 0 ≤ v)
    (hm : ∀ p ∈ m, 0 ≤ p.2) : ∀ p ∈ setQ m k v, 0 ≤ p.2 := by
  intro p hp
  simp only [setQ, List.mem_map] at hp
  obtain ⟨x, hx, hxp⟩ := hp
  by_cases h : x.1 = k
  · simp [h] at hxp; subst hxp; exact hv
  · simp [h] at hxp; subst hxp; exact hm x hx

theorem lookupQ_emplaceQ (m : QMap) (k k' : Nat) (v : ℚ) :
    lookupQ (emplaceQ m k v) k' =
      if k' = k then ((lookupQ m k).or (some v)) else lookupQ m k' := by
  by_cases hs : (lookupQ m k).isSome
  · rw [emplaceQ, if_pos hs]
    by_cases h : k' = k
    · subst h
      obtain ⟨w, hw⟩ := Option.isSome_iff_exists.mp hs
      simp [hw]
    · simp [h]
  · rw [emplaceQ, if_neg hs, lookupQ_append]
    have hn : lookupQ m k = none := Option.not_isSome_iff_eq_none.mp hs
    by_cases h : k' = k
    · subst h
      simp [hn, lookupQ_cons, lookupQ]
    · simp only [if_neg h]
      rw [show lookupQ [(k, v)] k' = none by simp [lookupQ_cons, lookupQ, Ne.symm, h]]
      cases lookupQ m k' <;> simp

theorem emplaceQ_nonneg (m : QMap) (k : Nat) (v : ℚ) (hv : 0 ≤ v)
    (hm : ∀ p ∈ m, 0 ≤ p.2) : ∀ p ∈ emplaceQ m k v, 0 ≤ p.2 := by
  intro p hp
  rw [emplaceQ] at hp
  by_cases hs : (lookupQ m k).isSome
  · rw [if_pos hs] at hp; exact hm p hp
  · rw [if_neg hs] at hp
    rcases List.mem_append.mp hp with h | h
    · exact hm p h
    · simp at h; subst h; exact hv



theorem lookupQ_foldlEmplace (bs : List BackendRate) (m : QMap) (k : Nat) :
    lookupQ (bs.foldl (fun q b => emplaceQ q b.nodeId b.throughput) m) k =
      (lookupQ m k).or
        ((bs.find? (fun b => b.nodeId == k)).map (fun b => b.throughput)) := by
  induction bs generalizing m with
  | nil => simp
  | cons b t ih =>
    rw [List.foldl_cons, ih]
    by_cases h : b.nodeId = k
    · rw [List.find?_cons_of_pos _ (by simp [h]), lookupQ_emplaceQ,
        if_pos h.symm, Option.or_assoc, h]
      simp
    · rw [List.find?_cons_of_neg _ (by simp [h]), lookupQ_emplaceQ,
        if_neg (fun hh => h hh.symm)]

theorem foldlEmplace_nonneg (bs : List BackendRate) (m : QMap)
    (hb : ∀ b ∈ bs, 0 ≤ b.throughput) (hm : ∀ p ∈ m, 0 ≤ p.2) :
    ∀ p ∈ bs.foldl (fun q b => emplaceQ q b.nodeId b.throughput) m, 0 ≤ p.2 := by
  induction bs generalizing m with
  | nil => exact hm
  | cons b t ih =>
    rw [List.foldl_cons]
    apply ih
    · exact fun x hx => hb x (List.mem_cons_of_mem _ hx)
    · exact emplaceQ_nonneg m b.nodeId b.throughput (hb b (List.mem_cons_self _ _)) hm

theorem lookupQ_filter_keys (l : QMap) (f : Nat → Bool) (k : Nat) :
    lookupQ (l.filter (fun p => f p.1)) k =
      if f k then lookupQ l k else none := by
  induction l with
  | nil => simp [lookupQ]
  | cons p t ih =>
    rw [List.filter_cons]
    by_cases hf : f p.1
    · rw [if_pos (by simpa using hf), lookupQ_cons, lookupQ_cons]
      by_cases h : p.1 = k
      · subst h; rw [if_pos rfl, if_pos hf, if_pos rfl]
      · rw [if_neg h, if_neg h, ih]
    · rw [if_neg (by simpa using hf), lookupQ_cons, ih]
      by_cases h : p.1 = k
      · subst h
        rw [if_neg hf, if_neg hf]
      · rw [if_neg h]


/-! ## Claim theorems -/

/-- C1: failing input for the claim.  A session whose `ModelRoute` has an
empty backend list is legal state (`UpdateModelRoutes` accepts an empty
`backend_rate`), but `GetBackend` then reads `backends_[0]` out of bounds and
computes `% 0` — undefined behaviour, modelled as abnormal termination
(`none`) — so `DispatchRequest` never replies `MODEL_NOT_FOUND` on an empty
route, contradicting the claim (and the spec's own requirement); the
`CTRL_OK` status is even set before the failure point on the non-crashing
reading.  This theorem evaluates the embedded code at the failing input. -/
theorem dispatch_empty_route_aborts :
    (ModelRoute.Update {} { modelSessionId := "m", backendRate := [] }).GetBackend
      = none ∧
    Dispatcher.DispatchRequest ⟨0, fun _ => 100, fun _ _ => 1⟩
      { models := [("m", ModelRoute.Update {} { modelSessionId := "m", backendRate := [] })] }
      ⟨"m", 50⟩ = none := by
  exact ⟨rfl, rfl⟩

/-- C4: every `BatchPlan` that `DispatchRequest` enqueues satisfies
`exec_time_ns = now + 5 ms`, `deadline_ns = frontend_recv_ns +
latency_sla_us · 1000`, and `expected_finish_time_ns = exec_time_ns +
forward_latency(batch = 1)` (the per-backend profile latency in
nanoseconds). -/
theorem dispatch_batchplan_time_fields (env : DispatchEnv) (st : DispatcherState)
    (q : Query) (status : CtrlStatus) (bid : Nat) (plan : BatchPlan)
    (st' : DispatcherState)
    (h : Dispatcher.DispatchRequest env st q = some (status, some (bid, plan), st')) :
    plan.execTimeNs = env.nowNs + 5000000 ∧
    plan.deadlineNs = q.frontendRecvNs + env.parseSlaUs q.modelSessionId * 1000 ∧
    plan.expectedFinishTimeNs =
      (plan.execTimeNs : ℚ) + env.fwdLatencyUs bid q.modelSessionId * 1000 := by
  simp only [Dispatcher.DispatchRequest] at h
  split at h
  · simp at h
  · split at h
    · simp at h
    · split at h
      · simp only [Option.some.injEq, Prod.mk.injEq] at h
        obtain ⟨-, hplan, -⟩ := h
        obtain ⟨hbid, hp⟩ := hplan
        subst hbid
        subst hp
        refine ⟨rfl, rfl, rfl⟩
      · simp at h

/-- C4 witness: a concrete dispatch through a one-backend route. -/
theorem dispatch_batchplan_time_fields_witness :
    Dispatcher.DispatchRequest ⟨0, fun _ => 100, fun _ _ => 7⟩
        { models := [("m", ModelRoute.Update {} ⟨"m", [⟨1, 2⟩]⟩)], backendIds := [1] }
        ⟨"m", 50⟩ =
      some (CtrlStatus.ctrlOk,
        some (1, ⟨0, "m", 0, 5000000, 100050, 5007000⟩),
        ⟨[("m", ⟨"m", [⟨1, 2⟩], [(1, 0)], 0, 2, 2⟩)], [1], [], 1, 1⟩) ∧
    ((5000000 : Int) = 0 + 5000000 ∧
     (100050 : Int) = 50 + 100 * 1000 ∧
     (5007000 : ℚ) = ((5000000 : Int) : ℚ) + 7 * 1000) :=
  ⟨by decide,
   dispatch_batchplan_time_fields ⟨0, fun _ => 100, fun _ _ => 7⟩
     { models := [("m", ModelRoute.Update {} ⟨"m", [⟨1, 2⟩]⟩)], backendIds := [1] }
     ⟨"m", 50⟩ CtrlStatus.ctrlOk 1 ⟨0, "m", 0, 5000000, 100050, 5007000⟩
     ⟨[("m", ⟨"m", [⟨1, 2⟩], [(1, 0)], 0, 2, 2⟩)], [1], [], 1, 1⟩
     (by decide)⟩

/-- C2: whenever `Scheduler::LoadModel` replies `NOT_ENOUGH_BACKENDS`, the
scheduler state is completely unchanged — no backend's loaded models change,
`session_table` gains no entry, no frontend subscription is added and no
backend weights are recorded (the placement loop only accumulates into
locals and every failure path returns before any commit). -/
theorem loadModel_not_enough_backends_no_commit (mie : String → Bool)
    (prepare : PrepareOracle) (st : SchedulerState) (nodeId : Nat)
    (sid : String) (w : ℚ) (st' : SchedulerState)
    (h : Scheduler.LoadModel mie prepare st nodeId sid w =
      some (CtrlStatus.notEnoughBackends, st')) :
    st' = st := by
  simp only [Scheduler.LoadModel] at h
  split at h
  · simp at h
  · split at h
    · simp at h
    · split at h
      · simp at h
      · split at h
        · simp at h
        · simp at h
          exact h.symm
        · simp at h

/-- C2 witness: with one frontend and no backends, loading 1 rps fails with
`NOT_ENOUGH_BACKENDS` and the state is unchanged. -/
theorem loadModel_not_enough_backends_no_commit_witness :
    Scheduler.LoadModel (fun _ => true) (fun _ _ => none)
      { frontends := [1] } 1 "m" 1 =
      some (CtrlStatus.notEnoughBackends, { frontends := [1] }) ∧
    ({ frontends := [1] } : SchedulerState) = { frontends := [1] } :=
  ⟨by decide,
   loadModel_not_enough_backends_no_commit (fun _ => true) (fun _ _ => none)
     { frontends := [1] } 1 "m" 1 { frontends := [1] }
     (by decide)⟩

/-- C9 counterexample: the scheduler-side half of the claim is false.  A
duplicate node id at `Scheduler::RegisterFrontend` / `RegisterBackend` fails
a `CHECK` and aborts the process (modelled `none`): no error status is
surfaced to the caller — these functions do not even take a reply. -/
theorem scheduler_register_duplicate_aborts :
    Scheduler.RegisterFrontend { frontends := [1] } 1 = none ∧
    Scheduler.RegisterBackend (fun s _ => s)
      { backends := [{ nodeId := 2 }] } { nodeId := 2 } = none :=
  ⟨rfl, rfl⟩

/-- C9 amended: duplicate registration at the dispatcher's `HandleRegister`
replies the node-id-conflict status and leaves the registered-node maps
unchanged; the scheduler's `RegisterFrontend`/`RegisterBackend` instead abort
on a failed `CHECK` before touching the maps, surfacing nothing. -/
theorem register_conflict_behavior :
    (∀ (st : DispatcherState) (nodeId : Nat), st.frontendIds.contains nodeId →
      Dispatcher.HandleRegister st NodeType.frontend nodeId =
        (CtrlStatus.frontendNodeIdConflict, st)) ∧
    (∀ (st : DispatcherState) (nodeId : Nat), st.backendIds.contains nodeId →
      Dispatcher.HandleRegister st NodeType.backend nodeId =
        (CtrlStatus.backendNodeIdConflict, st)) ∧
    (∀ (st : SchedulerState) (nodeId : Nat), st.frontends.contains nodeId →
      Scheduler.RegisterFrontend st nodeId = none) ∧
    (∀ (ab : SchedulerState → Nat → SchedulerState) (st : SchedulerState)
        (b : BackendMeta), st.backends.any (fun x => x.nodeId == b.nodeId) →
      Scheduler.RegisterBackend ab st b = none) := by
  refine ⟨?_, ?_, ?_, ?_⟩
  · intro st nodeId hmem
    simp only [Dispatcher.HandleRegister, hmem, if_pos]
  · intro st nodeId hmem
    simp only [Dispatcher.HandleRegister, hmem, if_pos]
  · intro st nodeId hmem
    simp only [Scheduler.RegisterFrontend, hmem, if_pos]
  · intro ab st b hmem
    simp only [Scheduler.RegisterBackend, hmem, if_pos]

/-- C9 witness: concrete duplicate registrations. -/
theorem register_conflict_behavior_witness :
    Dispatcher.HandleRegister { frontendIds := [5] } NodeType.frontend 5 =
      (CtrlStatus.frontendNodeIdConflict, { frontendIds := [5] }) ∧
    Scheduler.RegisterFrontend { frontends := [3] } 3 = none :=
  ⟨register_conflict_behavior.1 _ 5 (by decide),
   register_conflict_behavior.2.2.1 _ 3 (by decide)⟩

/-- C8 counterexample: `Update` does **not** reset the quanta of surviving
backends.  Start a fresh route over backend 1 with rate 2 (quantum seeded 2),
run `GetBackend` once (quantum becomes 0), then `Update` with the identical
route: the quantum stays 0 — `backend_quanta_.emplace` never overwrites —
whereas the claim's "quanta of surviving backends are reset" would require it
to be back at its rate 2. -/
theorem update_does_not_reset_surviving_quantum :
    ((ModelRoute.Update {} ⟨"m", [⟨1, 2⟩]⟩).GetBackend).map
      (fun p => lookupQ ((p.2.Update ⟨"m", [⟨1, 2⟩]⟩).backendQuanta) 1) =
      some (some 0) ∧
    ¬ ((0 : ℚ) = 2) :=
  ⟨by decide, by decide⟩



theorem foldl_stdMin_le_init (bs : List BackendRate) (a : ℚ) :
    bs.foldl (fun m b => stdMin m b.throughput) a ≤ a := by
  induction bs generalizing a with
  | nil => exact le_refl a
  | cons b t ih =>
    rw [List.foldl_cons]
    refine le_trans (ih (stdMin a b.throughput)) ?_
    rw [stdMin]
    split
    · exact le_of_lt (by assumption)
    · exact le_refl a

theorem foldl_stdMin_le_mem (bs : List BackendRate) (a : ℚ) :
    ∀ b ∈ bs, bs.foldl (fun m b => stdMin m b.throughput) a ≤ b.throughput := by
  induction bs generalizing a with
  | nil => intro b hb; simp at hb
  | cons c t ih =>
    intro b hb
    rcases List.mem_cons.mp hb with h | h
    · subst h
      rw [List.foldl_cons]
      refine le_trans (foldl_stdMin_le_init t (stdMin a b.throughput)) ?_
      rw [stdMin]
      split
      · exact le_refl _
      · exact le_of_not_lt (by assumption)
    · rw [List.foldl_cons]
      exact ih (stdMin a c.throughput) b h

theorem foldl_stdMin_mem (bs : List BackendRate) (a : ℚ) :
    bs.foldl (fun m b => stdMin m b.throughput) a = a ∨
    ∃ b ∈ bs, bs.foldl (fun m b => stdMin m b.throughput) a = b.throughput := by
  induction bs generalizing a with
  | nil => exact Or.inl rfl
  | cons c t ih =>
    rw [List.foldl_cons]
    rcases ih (stdMin a c.throughput) with h | ⟨b, hb, hval⟩
    · rw [h, stdMin]
      split
      · exact Or.inr ⟨c, List.mem_cons_self _ _, rfl⟩
      · exact Or.inl rfl
    · exact Or.inr ⟨b, List.mem_cons_of_mem _ hb, hval⟩

theorem update_backends_eq (r : ModelRoute) (proto : ModelRouteProto) :
    (r.Update proto).backends = proto.backendRate := rfl

theorem update_quanta_lookup (r : ModelRoute) (proto : ModelRouteProto) (k : Nat) :
    lookupQ (r.Update proto).backendQuanta k =
      if proto.backendRate.any (fun b => b.nodeId == k) then
        (lookupQ r.backendQuanta k).or
          ((proto.backendRate.find? (fun b => b.nodeId == k)).map
            (fun b => b.throughput))
      else none := by
  show lookupQ ((proto.backendRate.foldl
      (fun q b => emplaceQ q b.nodeId b.throughput) r.backendQuanta).filter
      (fun p => proto.backendRate.any (fun b => b.nodeId == p.1))) k = _
  rw [lookupQ_filter_keys _ (fun x => proto.backendRate.any (fun b => b.nodeId == x)),
    lookupQ_foldlEmplace]



theorem update_index_found (r : ModelRoute) (proto : ModelRouteProto) (i : Nat)
    (h : proto.backendRate.findIdx? (fun b => b.nodeId == savedDrrBackendId r) = some i) :
    (r.Update proto).currentDrrIndex = i ∧
    (proto.backendRate[i]?).map (fun b => b.nodeId) = some (savedDrrBackendId r) := by
  constructor
  · show (match proto.backendRate.findIdx? (fun b => b.nodeId == savedDrrBackendId r) with
      | some i => i
      | none => if proto.backendRate.isEmpty then 0
                else r.currentDrrIndex % proto.backendRate.length) = i
    rw [h]
  · have hp := List.findIdx?_of_eq_some h
    cases hget : proto.backendRate[i]? with
    | none => rw [hget] at hp; simp at hp
    | some a =>
      rw [hget] at hp
      simp at hp ⊢
      exact hp

theorem update_index_missing (r : ModelRoute) (proto : ModelRouteProto)
    (h : proto.backendRate.findIdx? (fun b => b.nodeId == savedDrrBackendId r) = none) :
    (r.Update proto).currentDrrIndex =
      if proto.backendRate.isEmpty then 0
      else r.currentDrrIndex % proto.backendRate.length := by
  show (match proto.backendRate.findIdx? (fun b => b.nodeId == savedDrrBackendId r) with
    | some i => i
    | none => if proto.backendRate.isEmpty then 0
              else r.currentDrrIndex % proto.backendRate.length) = _
  rw [h]

theorem update_minRate_attained (r : ModelRoute) (proto : ModelRouteProto)
    (hle : ∀ b ∈ proto.backendRate, b.throughput ≤ dblMax)
    (hne : proto.backendRate ≠ []) :
    ∃ b ∈ proto.backendRate, (r.Update proto).minRate = b.throughput := by
  have hm : (r.Update proto).minRate =
      proto.backendRate.foldl (fun m b => stdMin m b.throughput) dblMax := rfl
  rcases foldl_stdMin_mem proto.backendRate dblMax with h | ⟨b, hb, hv⟩
  · obtain ⟨c, t, hbs⟩ := List.exists_cons_of_ne_nil hne
    have hc : c ∈ proto.backendRate := by rw [hbs]; exact List.mem_cons_self _ _
    have h1 : proto.backendRate.foldl (fun m b => stdMin m b.throughput) dblMax
        ≤ c.throughput := foldl_stdMin_le_mem _ _ c hc
    have h3 : c.throughput ≤
        proto.backendRate.foldl (fun m b => stdMin m b.throughput) dblMax := by
      rw [h]; exact hle c hc
    refine ⟨c, hc, ?_⟩
    rw [hm]
    exact le_antisymm h1 h3
  · refine ⟨b, hb, ?_⟩
    rw [hm]
    exact hv



/-- C8 amended: `ModelRoute::Update` replaces the backend list, recomputes
`total_throughput` and `min_rate` (a lower bound of every new rate, attained
when rates are genuine doubles, i.e. at most `DBL_MAX`), seeds quanta for
newly appearing backends with their rate while backends already present
**keep their previous quantum** (`emplace` does not overwrite), drops quanta
of removed backends, and restores `current_drr_index` to the entry of the
previously selected backend when it survives, else clamps it modulo the new
size (0 for an empty route).  The quanta equation below captures all three
quanta cases at once: the `.or` prefers the surviving old value, falls back
to the first matching rate for fresh backends, and keys absent from the new
route are gone. -/
theorem modelRoute_update_spec (r : ModelRoute) (proto : ModelRouteProto) :
    ((r.Update proto).backends = proto.backendRate) ∧
    ((r.Update proto).totalThroughput =
      proto.backendRate.foldl (fun t b => t + b.throughput) 0) ∧
    (∀ b ∈ proto.backendRate, (r.Update proto).minRate ≤ b.throughput) ∧
    ((∀ b ∈ proto.backendRate, b.throughput ≤ dblMax) → proto.backendRate ≠ [] →
      ∃ b ∈ proto.backendRate, (r.Update proto).minRate = b.throughput) ∧
    (∀ k, lookupQ (r.Update proto).backendQuanta k =
      if proto.backendRate.any (fun b => b.nodeId == k) then
        (lookupQ r.backendQuanta k).or
          ((proto.backendRate.find? (fun b => b.nodeId == k)).map
            (fun b => b.throughput))
      else none) ∧
    (∀ i, proto.backendRate.findIdx?
        (fun b => b.nodeId == savedDrrBackendId r) = some i →
      (r.Update proto).currentDrrIndex = i ∧
      (proto.backendRate[i]?).map (fun b => b.nodeId) =
        some (savedDrrBackendId r)) ∧
    (proto.backendRate.findIdx?
        (fun b => b.nodeId == savedDrrBackendId r) = none →
      (r.Update proto).currentDrrIndex =
        if proto.backendRate.isEmpty then 0
        else r.currentDrrIndex % proto.backendRate.length) :=
  ⟨rfl, rfl, fun b hb => foldl_stdMin_le_mem _ _ b hb,
   update_minRate_attained r proto,
   update_quanta_lookup r proto,
   update_index_found r proto,
   update_index_missing r proto⟩

/-- C8 witness: update a route whose surviving backend 1 has spent quantum 0
with a route adding backend 3; the hypotheses of the attained-minimum
conjunct hold concretely. -/
theorem modelRoute_update_spec_witness :
    (∀ b ∈ ([⟨1, 2⟩, ⟨3, 5⟩] : List BackendRate), b.throughput ≤ dblMax) ∧
    (([⟨1, 2⟩, ⟨3, 5⟩] : List BackendRate) ≠ []) ∧
    (∃ b ∈ ([⟨1, 2⟩, ⟨3, 5⟩] : List BackendRate),
      (ModelRoute.Update ⟨"m", [⟨1, 2⟩], [(1, 0)], 0, 2, 2⟩
        ⟨"m", [⟨1, 2⟩, ⟨3, 5⟩]⟩).minRate = b.throughput) :=
  ⟨by decide, by decide,
   (modelRoute_update_spec ⟨"m", [⟨1, 2⟩], [(1, 0)], 0, 2, 2⟩
      ⟨"m", [⟨1, 2⟩, ⟨3, 5⟩]⟩).2.2.2.1 (by decide) (by decide)⟩




/-- C5: `BeaconCheck` returns `trigger = true` iff some session of the
updated table has a full (`history_len`-sample) history whose
`estimate_rps = max(last sample, 0.1)` lies below `0.8` or above `1.1` times
the session's total throughput; and each tick appends the aggregated
`rps = Σ max(0, rate)` to `rps_history` bounded to `history_len`
(popping the front on overflow), suppressing the sample only while the
history is empty and the sample is zero. -/
theorem beaconCheck_trigger_and_history (len : Nat) (tbl : List (String × SessionInfo)) :
    ((Scheduler.BeaconCheck len tbl).2 = true ↔
      ∃ p ∈ (Scheduler.BeaconCheck len tbl).1,
        len ≤ p.2.rpsHistory.length ∧
        (stdMax (p.2.rpsHistory.getD (len - 1) 0) (mkRat 1 10) <
            p.2.TotalThroughput * mkRat 8 10 ∨
         p.2.TotalThroughput * mkRat 11 10 <
            stdMax (p.2.rpsHistory.getD (len - 1) 0) (mkRat 1 10))) ∧
    ((Scheduler.BeaconCheck len tbl).1 =
      tbl.map (fun p => (p.1, beaconAggregate len p.2))) ∧
    (∀ s : SessionInfo, s.rpsHistory.length ≤ len →
      (beaconAggregate len s).rpsHistory =
        (if s.rpsHistory = [] ∧
            s.workloads.foldl (fun acc w => acc + stdMax 0 w.2) 0 ≤ 0 then []
         else if s.rpsHistory.length < len then
           s.rpsHistory ++ [s.workloads.foldl (fun acc w => acc + stdMax 0 w.2) 0]
         else
           (s.rpsHistory ++
             [s.workloads.foldl (fun acc w => acc + stdMax 0 w.2) 0]).tail)) := by
  refine ⟨?_, rfl, ?_⟩
  · simp only [Scheduler.BeaconCheck, List.any_eq_true]
    constructor
    · rintro ⟨p, hp, htrig⟩
      refine ⟨p, hp, ?_⟩
      simp only [sessionTrigger] at htrig
      split at htrig
      · simp at htrig
      · refine ⟨by omega, ?_⟩
        exact of_decide_eq_true htrig
    · rintro ⟨p, hp, hlen, hor⟩
      refine ⟨p, hp, ?_⟩
      simp only [sessionTrigger]
      rw [if_neg (by omega)]
      exact decide_eq_true hor
  · intro s hle
    simp only [beaconAggregate]
    by_cases h0 : s.rpsHistory = [] ∧
        s.workloads.foldl (fun acc w => acc + stdMax 0 w.2) 0 ≤ 0
    · have hcond : ¬ (0 < s.rpsHistory.length ∨
          0 < s.workloads.foldl (fun acc w => acc + stdMax 0 w.2) 0) := by
        rw [h0.1]
        simp only [List.length_nil, Nat.lt_irrefl, false_or, not_lt]
        exact h0.2
      rw [if_pos h0, if_neg hcond, h0.1]
      simp
    · have hcond : 0 < s.rpsHistory.length ∨
          0 < s.workloads.foldl (fun acc w => acc + stdMax 0 w.2) 0 := by
        rcases not_and_or.mp h0 with h | h
        · exact Or.inl (List.length_pos.mpr h)
        · exact Or.inr (not_le.mp h)
      rw [if_neg h0, if_pos hcond]
      have hlen1 : (s.rpsHistory ++
          [s.workloads.foldl (fun acc w => acc + stdMax 0 w.2) 0]).length =
          s.rpsHistory.length + 1 := by simp
      by_cases hlt : s.rpsHistory.length < len
      · rw [if_pos hlt, if_neg (show ¬ _ by rw [hlen1]; omega)]
      · rw [if_neg hlt, if_pos (show _ by rw [hlen1]; omega)]



/-- One concrete session for the C5 witness: no history yet, one frontend
reporting 3 rps, one backend weight of 1. -/
def demoSession : SessionInfo := ⟨[], [(2, 1)], [(1, 3)], [], 0, [], false⟩

/-- C5 witness: the history-append equation at a concrete session with an
empty history and a positive reported rate. -/
theorem beaconCheck_trigger_and_history_witness :
    (demoSession.rpsHistory.length ≤ 1) ∧
    ((beaconAggregate 1 demoSession).rpsHistory =
      (if demoSession.rpsHistory = [] ∧
          demoSession.workloads.foldl (fun acc w => acc + stdMax 0 w.2) 0 ≤ 0 then []
       else if demoSession.rpsHistory.length < 1 then
         demoSession.rpsHistory ++
           [demoSession.workloads.foldl (fun acc w => acc + stdMax 0 w.2) 0]
       else
         (demoSession.rpsHistory ++
           [demoSession.workloads.foldl (fun acc w => acc + stdMax 0 w.2) 0]).tail)) :=
  ⟨by decide, (beaconCheck_trigger_and_history 1 []).2.2 demoSession (by decide)⟩





/-- C6: for a session with a full history and
`estimate_rps < 0.97 · total_throughput`, the epoch step takes the release
branch, which (last conjunct) subtracts the static backends' weights up
front, sorts the adjustable backends by weight descending
(`Pairwise wge` + permutation, second conjunct), and walks them with
`releaseWalk`, whose step equation (fourth conjunct) is exactly the claim's
three cases: remainder below `1e-3` → unload and erase the weight; weight
exceeding the remainder → `UpdateModelThroughput(session, remainder)`,
refresh the recorded weight and subtract the actual new throughput; else
subtract the weight. -/
theorem epoch_release_pass_spec (upd : UpdThroughputOracle) (isStatic : Nat → Bool)
    (len : Nat) (s : SessionInfo)
    (hfull : ¬ s.rpsHistory.length < len)
    (hrel : stdMax (s.rpsHistory.getD (s.rpsHistory.length - 1) 0) (mkRat 1 10) <
      s.TotalThroughput * mkRat 97 100) :
    (epochSessionBranch upd isStatic len s =
      EpochBranch.release (epochReleaseSession upd isStatic
        (stdMax (s.rpsHistory.getD (s.rpsHistory.length - 1) 0) (mkRat 1 10))
        s.backendWeights)) ∧
    (∀ l : List (Nat × ℚ), (sortWeightDesc l).Pairwise wge ∧
      (sortWeightDesc l).Perm l) ∧
    (∀ est weights, releaseWalk upd est weights [] = (est, weights, [])) ∧
    (∀ est weights b w rest, releaseWalk upd est weights ((b, w) :: rest) =
      if est < mkRat 1 1000 then
        ((releaseWalk upd est (eraseQ weights b) rest).1,
         (releaseWalk upd est (eraseQ weights b) rest).2.1,
         b :: (releaseWalk upd est (eraseQ weights b) rest).2.2)
      else if est < w then
        releaseWalk upd (est - (upd b est).1) (setQ weights b (upd b est).2) rest
      else releaseWalk upd (est - w) weights rest) ∧
    (∀ est weights, epochReleaseSession upd isStatic est weights =
      releaseWalk upd
        (est - (weights.filter (fun p => isStatic p.1)).foldl
          (fun a p => a + p.2) 0)
        weights
        (sortWeightDesc (weights.filter (fun p => isStatic p.1 = false)))) := by
  refine ⟨?_, ?_, ?_, ?_, ?_⟩
  · simp only [epochSessionBranch]
    rw [if_neg hfull, if_pos hrel]
  · intro l
    exact ⟨List.sorted_insertionSort wge l, List.perm_insertionSort wge l⟩
  · intro est weights
    rfl
  · intro est weights b w rest
    by_cases h1 : est < mkRat 1 1000
    · simp only [releaseWalk, if_pos h1]
    · by_cases h2 : est < w
      · simp only [releaseWalk, if_neg h1, if_pos h2]
      · simp only [releaseWalk, if_neg h1, if_neg h2]
  · intro est weights
    rfl

/-- A session for the C6 witness: one static backend 9 (weight 2) and two
adjustable backends, a full one-sample history of 1 rps against total
throughput 10. -/
def demoReleaseSession : SessionInfo := ⟨[], [(9, 2), (4, 5), (6, 3)], [], [1], 0, [], false⟩

/-- C6 witness: the release branch fires at the concrete session. -/
theorem epoch_release_pass_spec_witness :
    (¬ demoReleaseSession.rpsHistory.length < 1) ∧
    (stdMax (demoReleaseSession.rpsHistory.getD
        (demoReleaseSession.rpsHistory.length - 1) 0) (mkRat 1 10) <
      demoReleaseSession.TotalThroughput * mkRat 97 100) ∧
    (epochSessionBranch (fun _ r => (r, r)) (fun n => n == 9) 1 demoReleaseSession =
      EpochBranch.release (epochReleaseSession (fun _ r => (r, r)) (fun n => n == 9)
        (stdMax (demoReleaseSession.rpsHistory.getD
          (demoReleaseSession.rpsHistory.length - 1) 0) (mkRat 1 10))
        demoReleaseSession.backendWeights)) :=
  ⟨by decide, by decide,
   (epoch_release_pass_spec (fun _ r => (r, r)) (fun n => n == 9) 1 demoReleaseSession
     (by decide) (by decide)).1⟩





/-- First-maximum selection over a candidate list, the accumulator discipline
of `FindBestBackend`'s scan (strict `>` keeps the earlier candidate). -/
def pickMax (f : FbbCand → ℚ) : Option FbbCand → List FbbCand → Option FbbCand
  | cur, [] => cur
  | cur, c :: cs =>
    pickMax f
      (match cur with
       | none => some c
       | some m => if f m < f c then some c else some m) cs

theorem pickMax_some_spec (f : FbbCand → ℚ) :
    ∀ (cs : List FbbCand) (m : FbbCand), ∃ r, pickMax f (some m) cs = some r ∧
      (r = m ∨ r ∈ cs) ∧ f m ≤ f r ∧ ∀ c ∈ cs, f c ≤ f r := by
  intro cs
  induction cs with
  | nil =>
    intro m
    exact ⟨m, rfl, Or.inl rfl, le_refl _, fun c hc => absurd hc (List.not_mem_nil c)⟩
  | cons c cs ih =>
    intro m
    by_cases h : f m < f c
    · obtain ⟨r, hr, hmem, hle, hall⟩ := ih c
      refine ⟨r, ?_, ?_, ?_, ?_⟩
      · simp only [pickMax, if_pos h]
        exact hr
      · rcases hmem with h' | h'
        · exact Or.inr (h' ▸ List.mem_cons_self _ _)
        · exact Or.inr (List.mem_cons_of_mem _ h')
      · exact le_trans (le_of_lt h) hle
      · intro d hd
        rcases List.mem_cons.mp hd with h' | h'
        · subst h'; exact hle
        · exact hall d h'
    · obtain ⟨r, hr, hmem, hle, hall⟩ := ih m
      refine ⟨r, ?_, ?_, hle, ?_⟩
      · simp only [pickMax, if_neg h]
        exact hr
      · rcases hmem with h' | h'
        · exact Or.inl h'
        · exact Or.inr (List.mem_cons_of_mem _ h')
      · intro d hd
        rcases List.mem_cons.mp hd with h' | h'
        · subst h'; exact le_trans (le_of_not_lt h) hle
        · exact hall d h'

theorem pickMax_none_nil (f : FbbCand → ℚ) : pickMax f none [] = none := rfl

theorem pickMax_none_spec (f : FbbCand → ℚ) (c : FbbCand) (cs : List FbbCand) :
    ∃ r, pickMax f none (c :: cs) = some r ∧ r ∈ c :: cs ∧
      ∀ d ∈ c :: cs, f d ≤ f r := by
  obtain ⟨r, hr, hmem, hle, hall⟩ := pickMax_some_spec f cs c
  refine ⟨r, hr, ?_, ?_⟩
  · rcases hmem with h | h
    · exact h ▸ List.mem_cons_self _ _
    · exact List.mem_cons_of_mem _ h
  · intro d hd
    rcases List.mem_cons.mp hd with h | h
    · subst h; exact hle
    · exact hall d h



theorem fbbScan_eq_pickMax (prepare : PrepareOracle) (rate : ℚ) (skips : List Nat) :
    ∀ (l : List BackendMeta) (mtp mocc : Option FbbCand),
      fbbScan prepare rate skips l mtp mocc =
        (pickMax (fun c => c.inst.throughput) mtp
          (fbbCandidates prepare rate skips l),
         pickMax (fun c => c.occupancy) mocc
          (fbbCandidates prepare rate skips l)) := by
  intro l
  induction l with
  | nil => intro mtp mocc; rfl
  | cons b rest ih =>
    intro mtp mocc
    by_cases h1 : skips.contains b.nodeId
    · rw [show fbbScan prepare rate skips (b :: rest) mtp mocc =
          fbbScan prepare rate skips rest mtp mocc from by
        simp only [fbbScan]; rw [if_pos h1]]
      rw [show fbbCandidates prepare rate skips (b :: rest) =
          fbbCandidates prepare rate skips rest from by
        simp only [fbbCandidates, List.filterMap_cons]; rw [if_pos h1]]
      exact ih mtp mocc
    · by_cases h2 : 0 ≤ b.workloadId
      · rw [show fbbScan prepare rate skips (b :: rest) mtp mocc =
            fbbScan prepare rate skips rest mtp mocc from by
          simp only [fbbScan]; rw [if_neg h1, if_pos h2]]
        rw [show fbbCandidates prepare rate skips (b :: rest) =
            fbbCandidates prepare rate skips rest from by
          simp only [fbbCandidates, List.filterMap_cons]; rw [if_neg h1, if_pos h2]]
        exact ih mtp mocc
      · by_cases h3 : fabsQ rate < mkRat 1 1000 ∧ b.idle = false
        · rw [show fbbScan prepare rate skips (b :: rest) mtp mocc =
              fbbScan prepare rate skips rest mtp mocc from by
            simp only [fbbScan]; rw [if_neg h1, if_neg h2, if_pos h3]]
          rw [show fbbCandidates prepare rate skips (b :: rest) =
              fbbCandidates prepare rate skips rest from by
            simp only [fbbCandidates, List.filterMap_cons]
            rw [if_neg h1, if_neg h2, if_pos h3]]
          exact ih mtp mocc
        · cases hp : prepare b.nodeId rate with
          | none =>
            rw [show fbbScan prepare rate skips (b :: rest) mtp mocc =
                fbbScan prepare rate skips rest mtp mocc from by
              simp only [fbbScan]; rw [if_neg h1, if_neg h2, if_neg h3, hp]]
            rw [show fbbCandidates prepare rate skips (b :: rest) =
                fbbCandidates prepare rate skips rest from by
              simp only [fbbCandidates, List.filterMap_cons]
              rw [if_neg h1, if_neg h2, if_neg h3, hp]
              rfl]
            exact ih mtp mocc
          | some pr =>
            rw [show fbbCandidates prepare rate skips (b :: rest) =
                ⟨b.nodeId, pr.1, pr.2⟩ :: fbbCandidates prepare rate skips rest from by
              simp only [fbbCandidates, List.filterMap_cons]
              rw [if_neg h1, if_neg h2, if_neg h3, hp]
              rfl]
            rw [show fbbScan prepare rate skips (b :: rest) mtp mocc =
                fbbScan prepare rate skips rest
                  (match mtp with
                   | none => some ⟨b.nodeId, pr.1, pr.2⟩
                   | some m => if m.inst.throughput < pr.1.throughput
                       then some ⟨b.nodeId, pr.1, pr.2⟩ else some m)
                  (match mocc with
                   | none => some ⟨b.nodeId, pr.1, pr.2⟩
                   | some m => if m.occupancy < pr.2
                       then some ⟨b.nodeId, pr.1, pr.2⟩ else some m) from by
              simp only [fbbScan]; rw [if_neg h1, if_neg h2, if_neg h3, hp]]
            rw [ih]
            rfl



/-- C7: `FindBestBackend` considers exactly the candidates of
`fbbCandidates` — backends with `workload_id < 0`, not in the skip set,
idle when `|rate| < 1e-3`, and with a successful `PrepareLoadModel` — and
returns no backend iff there is none; a returned candidate is one of them
and is maximum-throughput when `|rate| < 1e-3`, maximum-throughput when even
the best achievable throughput is below `rate` (equivalently: every
candidate's throughput is), and maximum-occupancy otherwise. -/
theorem findBestBackend_selection_spec (prepare : PrepareOracle)
    (backends : List BackendMeta) (rate : ℚ) (skips : List Nat) :
    (Scheduler.FindBestBackend prepare backends rate skips = none ↔
      fbbCandidates prepare rate skips backends = []) ∧
    (∀ c, Scheduler.FindBestBackend prepare backends rate skips = some c →
      c ∈ fbbCandidates prepare rate skips backends ∧
      (if fabsQ rate < mkRat 1 1000 then
        ∀ d ∈ fbbCandidates prepare rate skips backends,
          d.inst.throughput ≤ c.inst.throughput
       else if ∀ d ∈ fbbCandidates prepare rate skips backends,
           d.inst.throughput < rate then
        ∀ d ∈ fbbCandidates prepare rate skips backends,
          d.inst.throughput ≤ c.inst.throughput
       else
        ∀ d ∈ fbbCandidates prepare rate skips backends,
          d.occupancy ≤ c.occupancy)) := by
  have hscan := fbbScan_eq_pickMax prepare rate skips backends none none
  cases hc : fbbCandidates prepare rate skips backends with
  | nil =>
    rw [hc] at hscan
    have hres : Scheduler.FindBestBackend prepare backends rate skips = none := by
      simp only [Scheduler.FindBestBackend, hscan, pickMax]
      split
      · rfl
      · rfl
    rw [hres]
    constructor
    · simp
    · intro c hcc
      simp at hcc
  | cons c0 cs =>
    rw [hc] at hscan
    obtain ⟨rt, hrt, hrtmem, hrtall⟩ :=
      pickMax_none_spec (fun c => c.inst.throughput) c0 cs
    obtain ⟨ro, hro, hromem, hroall⟩ :=
      pickMax_none_spec (fun c => c.occupancy) c0 cs
    have hfb : Scheduler.FindBestBackend prepare backends rate skips =
        if fabsQ rate < mkRat 1 1000 then some rt
        else if rt.inst.throughput < rate then some rt else some ro := by
      simp only [Scheduler.FindBestBackend, hscan, hrt, hro]
    rw [hfb]
    constructor
    · constructor
      · intro hnone
        exfalso
        revert hnone
        split
        · simp
        · split <;> simp
      · intro hnil
        exact absurd hnil (List.cons_ne_nil c0 cs)
    · intro c hcc
      by_cases hf : fabsQ rate < mkRat 1 1000
      · rw [if_pos hf] at hcc ⊢
        obtain rfl : rt = c := by injection hcc
        exact ⟨hrtmem, hrtall⟩
      · rw [if_neg hf] at hcc ⊢
        by_cases hlt : rt.inst.throughput < rate
        · rw [if_pos hlt] at hcc
          obtain rfl : rt = c := by injection hcc
          rw [if_pos (show ∀ d ∈ c0 :: cs, d.inst.throughput < rate from
            fun d hd => lt_of_le_of_lt (hrtall d hd) hlt)]
          exact ⟨hrtmem, hrtall⟩
        · rw [if_neg hlt] at hcc
          obtain rfl : ro = c := by injection hcc
          rw [if_neg (show ¬ ∀ d ∈ c0 :: cs, d.inst.throughput < rate from
            fun hall => hlt (hall rt hrtmem))]
          exact ⟨hromem, hroall⟩




/-- Placement oracle for the C7 witness: backend 2 offers throughput 2 at
occupancy 5, backend 1 offers throughput 1 at occupancy 7. -/
def demoPrepare : PrepareOracle :=
  fun n _ => if n == 2 then some (⟨2, 0⟩, 5) else some (⟨1, 0⟩, 7)

/-- Backend pool for the C7 witness. -/
def demoBackends : List BackendMeta := [{ nodeId := 1 }, { nodeId := 2 }]

/-- C7 witness: with both throughputs below the requested 10 rps the
maximum-throughput candidate (backend 2) is selected. -/
theorem findBestBackend_selection_spec_witness :
    Scheduler.FindBestBackend demoPrepare demoBackends 10 [] =
      some ⟨2, ⟨2, 0⟩, 5⟩ ∧
    ((⟨2, ⟨2, 0⟩, 5⟩ : FbbCand) ∈ fbbCandidates demoPrepare 10 [] demoBackends ∧
     if fabsQ 10 < mkRat 1 1000 then
       ∀ d ∈ fbbCandidates demoPrepare 10 [] demoBackends,
         d.inst.throughput ≤ (⟨2, ⟨2, 0⟩, 5⟩ : FbbCand).inst.throughput
     else if ∀ d ∈ fbbCandidates demoPrepare 10 [] demoBackends,
         d.inst.throughput < 10 then
       ∀ d ∈ fbbCandidates demoPrepare 10 [] demoBackends,
         d.inst.throughput ≤ (⟨2, ⟨2, 0⟩, 5⟩ : FbbCand).inst.throughput
     else
       ∀ d ∈ fbbCandidates demoPrepare 10 [] demoBackends,
         d.occupancy ≤ (⟨2, ⟨2, 0⟩, 5⟩ : FbbCand).occupancy) :=
  ⟨by decide,
   (findBestBackend_selection_spec demoPrepare demoBackends 10 []).2
     ⟨2, ⟨2, 0⟩, 5⟩ (by decide)⟩





theorem lookupQ_some_nonneg (m : QMap) (k : Nat) (q : ℚ)
    (hm : ∀ p ∈ m, 0 ≤ p.2) (h : lookupQ m k = some q) : 0 ≤ q := by
  simp only [lookupQ, Option.map_eq_some'] at h
  obtain ⟨p, hp, hpq⟩ := h
  exact hpq ▸ hm p (List.mem_of_find?_eq_some hp)

/-- The DRR loop invariant argument: if some backend at distance `j` ahead of
the current index (cyclically) has a quantum at least `min_rate`, the loop
returns within the `CHECK` bound.  Quanta stay nonnegative and no entry is
lost. -/
theorem getBackendGo_succeeds (bs : List BackendRate) (minRate : ℚ)
    (hrate : ∀ b ∈ bs, 0 ≤ b.throughput)
    (hmin : ∀ b ∈ bs, minRate ≤ b.throughput) :
    ∀ (j fuel : Nat) (quanta : QMap) (idx i : Nat),
      idx < bs.length → i + j ≤ bs.length → j < fuel →
      (∀ p ∈ quanta, 0 ≤ p.2) →
      (∀ b ∈ bs, (lookupQ quanta b.nodeId).isSome) →
      (∃ b q, bs[(idx + j) % bs.length]? = some b ∧
        lookupQ quanta b.nodeId = some q ∧ minRate ≤ q) →
      ∃ nid quanta' idx' iRet,
        getBackendGo bs minRate fuel quanta idx i =
          some (nid, quanta', idx', iRet) ∧
        iRet ≤ bs.length ∧
        (∀ p ∈ quanta', 0 ≤ p.2) ∧
        (∀ b ∈ bs, (lookupQ quanta' b.nodeId).isSome) ∧
        idx' < bs.length ∧
        (∃ b ∈ bs, b.nodeId = nid) := by
  intro j
  induction j with
  | zero =>
    intro fuel quanta idx i hidx hij hfuel hnn hdom hwit
    obtain ⟨b, q, hb, hq, hge⟩ := hwit
    rw [Nat.add_zero, Nat.mod_eq_of_lt hidx] at hb
    obtain ⟨fuel, rfl⟩ : ∃ f, fuel = f + 1 := ⟨fuel - 1, by omega⟩
    refine ⟨b.nodeId, setQ quanta b.nodeId (q - minRate), idx, i, ?_, by omega,
      ?_, ?_, hidx, ⟨b, List.getElem?_mem hb, rfl⟩⟩
    · simp only [getBackendGo, hb, hq, if_pos hge]
    · exact setQ_nonneg _ _ _ (by linarith) hnn
    · intro b' hb'
      rw [lookupQ_setQ_isSome]
      exact hdom b' hb'
  | succ j ih =>
    intro fuel quanta idx i hidx hij hfuel hnn hdom hwit
    have hlen : 0 < bs.length := by omega
    obtain ⟨fuel, rfl⟩ : ∃ f, fuel = f + 1 := ⟨fuel - 1, by omega⟩
    obtain ⟨b0, hb0⟩ : ∃ b0, bs[idx]? = some b0 :=
      ⟨bs.get ⟨idx, hidx⟩, by rw [List.getElem?_eq_getElem hidx]; rfl⟩
    have hb0mem : b0 ∈ bs := List.getElem?_mem hb0
    obtain ⟨q0, hq0⟩ := Option.isSome_iff_exists.mp (hdom b0 hb0mem)
    by_cases hge : minRate ≤ q0
    · refine ⟨b0.nodeId, setQ quanta b0.nodeId (q0 - minRate), idx, i, ?_,
        by omega, ?_, ?_, hidx, ⟨b0, hb0mem, rfl⟩⟩
      · simp only [getBackendGo, hb0, hq0, if_pos hge]
      · exact setQ_nonneg _ _ _ (by linarith) hnn
      · intro b' hb'
        rw [lookupQ_setQ_isSome]
        exact hdom b' hb'
    · have hq0nn : 0 ≤ q0 := lookupQ_some_nonneg quanta b0.nodeId q0 hnn hq0
      have hstep : getBackendGo bs minRate (fuel + 1) quanta idx i =
          getBackendGo bs minRate fuel
            (setQ quanta b0.nodeId (q0 + b0.throughput))
            ((idx + 1) % bs.length) (i + 1) := by
        simp only [getBackendGo, hb0, hq0, if_neg hge, if_pos (by omega : i ≤ bs.length)]
      rw [hstep]
      apply ih fuel (setQ quanta b0.nodeId (q0 + b0.throughput))
        ((idx + 1) % bs.length) (i + 1) (Nat.mod_lt _ hlen) (by omega) (by omega)
      · exact setQ_nonneg _ _ _ (by
          have := hrate b0 hb0mem
          linarith) hnn
      · intro b' hb'
        rw [lookupQ_setQ_isSome]
        exact hdom b' hb'
      · obtain ⟨w, qw, hw, hqw, hwge⟩ := hwit
        have hpos : ((idx + 1) % bs.length + j) % bs.length =
            (idx + (j + 1)) % bs.length := by
          rw [Nat.mod_add_mod]
          congr 1
          omega
        refine ⟨w, ?_⟩
        by_cases hsame : w.nodeId = b0.nodeId
        · refine ⟨q0 + b0.throughput, ?_, ?_, ?_⟩
          · rw [hpos]; exact hw
          · rw [hsame, lookupQ_setQ_self _ _ _ (by rw [hq0]; rfl)]
          · have := hmin b0 hb0mem
            linarith
        · refine ⟨qw, ?_, ?_, hwge⟩
          · rw [hpos]; exact hw
          · rw [lookupQ_setQ_ne _ _ _ _ hsame]
            exact hqw




/-- Totality of the DRR loop from any state with in-range index, positive
rates bounding `min_rate` from above, and nonnegative quanta covering every
listed backend. -/
theorem drr_go_total (bs : List BackendRate) (minRate : ℚ) (quanta : QMap)
    (idx : Nat) (hne : bs ≠ []) (hidx : idx < bs.length)
    (hpos : ∀ b ∈ bs, 0 < b.throughput)
    (hmin : ∀ b ∈ bs, minRate ≤ b.throughput)
    (hdom : ∀ b ∈ bs, (lookupQ quanta b.nodeId).isSome)
    (hnn : ∀ p ∈ quanta, 0 ≤ p.2) :
    ∃ nid quanta' idx' iRet,
      getBackendGo bs minRate (bs.length + 2) quanta idx 0 =
        some (nid, quanta', idx', iRet) ∧
      iRet ≤ bs.length ∧
      (∀ p ∈ quanta', 0 ≤ p.2) ∧
      (∀ b ∈ bs, (lookupQ quanta' b.nodeId).isSome) ∧
      idx' < bs.length ∧
      (∃ b ∈ bs, b.nodeId = nid) := by
  have hrate : ∀ b ∈ bs, 0 ≤ b.throughput := fun b hb => le_of_lt (hpos b hb)
  have hlen : 0 < bs.length := List.length_pos.mpr hne
  obtain ⟨b0, hb0⟩ : ∃ b0, bs[idx]? = some b0 :=
    ⟨bs.get ⟨idx, hidx⟩, by rw [List.getElem?_eq_getElem hidx]; rfl⟩
  have hb0mem : b0 ∈ bs := List.getElem?_mem hb0
  obtain ⟨q0, hq0⟩ := Option.isSome_iff_exists.mp (hdom b0 hb0mem)
  by_cases hge : minRate ≤ q0
  · exact getBackendGo_succeeds bs minRate hrate hmin 0 (bs.length + 2)
      quanta idx 0 hidx (by omega) (by omega) hnn hdom
      ⟨b0, q0, by rw [Nat.add_zero, Nat.mod_eq_of_lt hidx]; exact hb0, hq0, hge⟩
  · have hq0nn : 0 ≤ q0 := lookupQ_some_nonneg quanta b0.nodeId q0 hnn hq0
    have hstep : getBackendGo bs minRate (bs.length + 2) quanta idx 0 =
        getBackendGo bs minRate (bs.length + 1)
          (setQ quanta b0.nodeId (q0 + b0.throughput)) ((idx + 1) % bs.length) 1 := by
      show getBackendGo bs minRate (bs.length + 1 + 1) quanta idx 0 = _
      simp only [getBackendGo, hb0, hq0, if_neg hge,
        if_pos (by omega : 0 ≤ bs.length)]
    rw [hstep]
    apply getBackendGo_succeeds bs minRate hrate hmin (bs.length - 1)
      (bs.length + 1) _ _ 1 (Nat.mod_lt _ hlen) (by omega) (by omega)
    · exact setQ_nonneg _ _ _ (by
        have := hrate b0 hb0mem
        linarith) hnn
    · intro b' hb'
      rw [lookupQ_setQ_isSome]
      exact hdom b' hb'
    · refine ⟨b0, q0 + b0.throughput, ?_, ?_, ?_⟩
      · rw [Nat.mod_add_mod, show idx + 1 + (bs.length - 1) = idx + bs.length
          from by omega, Nat.add_mod_right, Nat.mod_eq_of_lt hidx]
        exact hb0
      · exact lookupQ_setQ_self _ _ _ (by rw [hq0]; rfl)
      · have := hmin b0 hb0mem
        linarith




/-- C10: for a non-empty backend list with positive throughputs,
`min_rate` bounded by every rate and nonnegative quanta covering all listed
backends (the state `Update` establishes), the DRR loop started as
`GetBackend` starts it returns successfully — the returning iteration index
`iRet` satisfies `iRet ≤ |backends|`, i.e. at most `|backends| + 1`
iterations run and the fatal `CHECK_LE(i, backends_.size())` (which would
yield `none`) is never reached — and every quantum stays nonnegative with no
entry lost.  The second conjunct lifts this to `ModelRoute.GetBackend`; the
third is preservation of quanta nonnegativity by `Update`. -/
theorem drr_terminates_and_preserves_nonneg :
    (∀ (bs : List BackendRate) (minRate : ℚ) (quanta : QMap) (idx : Nat),
      bs ≠ [] → idx < bs.length →
      (∀ b ∈ bs, 0 < b.throughput) →
      (∀ b ∈ bs, minRate ≤ b.throughput) →
      (∀ b ∈ bs, (lookupQ quanta b.nodeId).isSome) →
      (∀ p ∈ quanta, 0 ≤ p.2) →
      ∃ nid quanta' idx' iRet,
        getBackendGo bs minRate (bs.length + 2) quanta idx 0 =
          some (nid, quanta', idx', iRet) ∧
        iRet ≤ bs.length ∧
        (∀ p ∈ quanta', 0 ≤ p.2) ∧
        (∀ b ∈ bs, (lookupQ quanta' b.nodeId).isSome)) ∧
    (∀ r : ModelRoute, r.backends ≠ [] →
      r.currentDrrIndex < r.backends.length →
      (∀ b ∈ r.backends, 0 < b.throughput) →
      (∀ b ∈ r.backends, r.minRate ≤ b.throughput) →
      (∀ b ∈ r.backends, (lookupQ r.backendQuanta b.nodeId).isSome) →
      (∀ p ∈ r.backendQuanta, 0 ≤ p.2) →
      ∃ nid r', r.GetBackend = some (nid, r') ∧
        (∀ p ∈ r'.backendQuanta, 0 ≤ p.2) ∧
        r'.backends = r.backends ∧ r'.currentDrrIndex < r'.backends.length) ∧
    (∀ (r : ModelRoute) (proto : ModelRouteProto),
      (∀ p ∈ r.backendQuanta, 0 ≤ p.2) →
      (∀ b ∈ proto.backendRate, 0 ≤ b.throughput) →
      ∀ p ∈ (r.Update proto).backendQuanta, 0 ≤ p.2) := by
  refine ⟨?_, ?_, ?_⟩
  · intro bs minRate quanta idx hne hidx hpos hmin hdom hnn
    obtain ⟨nid, quanta', idx', iRet, hgo, hle, hnn', hdom', -, -⟩ :=
      drr_go_total bs minRate quanta idx hne hidx hpos hmin hdom hnn
    exact ⟨nid, quanta', idx', iRet, hgo, hle, hnn', hdom'⟩
  · intro r hne hidx hpos hmin hdom hnn
    obtain ⟨nid, quanta', idx', iRet, hgo, hle, hnn', hdom', hidx', -⟩ :=
      drr_go_total r.backends r.minRate r.backendQuanta r.currentDrrIndex
        hne hidx hpos hmin hdom hnn
    refine ⟨nid, { r with backendQuanta := quanta', currentDrrIndex := idx' },
      ?_, hnn', rfl, hidx'⟩
    simp only [ModelRoute.GetBackend, hgo, Option.map_some']
  · intro r proto h1 h2 p hp
    exact foldlEmplace_nonneg proto.backendRate r.backendQuanta h2 h1 p
      (List.mem_of_mem_filter hp)

/-- C10 witness: two backends with rates 2 and 1, both quanta exhausted to
0, still select a backend within the bound. -/
theorem drr_terminates_and_preserves_nonneg_witness :
    (([⟨1, 2⟩, ⟨2, 1⟩] : List BackendRate) ≠ [] ∧
     0 < ([⟨1, 2⟩, ⟨2, 1⟩] : List BackendRate).length ∧
     (∀ b ∈ ([⟨1, 2⟩, ⟨2, 1⟩] : List BackendRate), 0 < b.throughput) ∧
     (∀ b ∈ ([⟨1, 2⟩, ⟨2, 1⟩] : List BackendRate), (1 : ℚ) ≤ b.throughput) ∧
     (∀ b ∈ ([⟨1, 2⟩, ⟨2, 1⟩] : List BackendRate),
       (lookupQ [(1, 0), (2, 0)] b.nodeId).isSome) ∧
     (∀ p ∈ ([(1, 0), (2, 0)] : QMap), 0 ≤ p.2)) ∧
    (∃ nid quanta' idx' iRet,
      getBackendGo [⟨1, 2⟩, ⟨2, 1⟩] 1 (([⟨1, 2⟩, ⟨2, 1⟩] : List BackendRate).length + 2)
        [(1, 0), (2, 0)] 0 0 = some (nid, quanta', idx', iRet) ∧
      iRet ≤ ([⟨1, 2⟩, ⟨2, 1⟩] : List BackendRate).length ∧
      (∀ p ∈ quanta', 0 ≤ p.2) ∧
      (∀ b ∈ ([⟨1, 2⟩, ⟨2, 1⟩] : List BackendRate),
        (lookupQ quanta' b.nodeId).isSome)) :=
  ⟨by decide,
   drr_terminates_and_preserves_nonneg.1 [⟨1, 2⟩, ⟨2, 1⟩] 1 [(1, 0), (2, 0)] 0
     (by decide) (by decide) (by decide) (by decide) (by decide) (by decide)⟩




/-- State invariant of a freshly-updated route over exactly one backend of
positive rate: the quantum map holds just that backend with a nonnegative
quantum, `min_rate` equals its rate, and the DRR index is 0. -/
def SingleBackendInv (r : ModelRoute) (b : BackendRate) : Prop :=
  r.backends = [b] ∧ 0 < b.throughput ∧ r.minRate = b.throughput ∧
  r.currentDrrIndex = 0 ∧ ∃ q, r.backendQuanta = [(b.nodeId, q)] ∧ 0 ≤ q

/-- The returning iteration of the DRR loop. -/
theorem getBackendGo_step_return (bs : List BackendRate) (minRate : ℚ)
    (fuel : Nat) (quanta : QMap) (idx i : Nat) (b : BackendRate) (q : ℚ)
    (hb : bs[idx]? = some b) (hq : lookupQ quanta b.nodeId = some q)
    (hge : minRate ≤ q) :
    getBackendGo bs minRate (fuel + 1) quanta idx i =
      some (b.nodeId, setQ quanta b.nodeId (q - minRate), idx, i) := by
  simp only [getBackendGo, hb, hq, if_pos hge]

/-- The advancing iteration of the DRR loop (subject to the `CHECK`). -/
theorem getBackendGo_step_advance (bs : List BackendRate) (minRate : ℚ)
    (fuel : Nat) (quanta : QMap) (idx i : Nat) (b : BackendRate) (q : ℚ)
    (hb : bs[idx]? = some b) (hq : lookupQ quanta b.nodeId = some q)
    (hlt : ¬ minRate ≤ q) :
    getBackendGo bs minRate (fuel + 1) quanta idx i =
      if i ≤ bs.length then
        getBackendGo bs minRate fuel (setQ quanta b.nodeId (q + b.throughput))
          ((idx + 1) % bs.length) (i + 1)
      else none := by
  simp only [getBackendGo, hb, hq, if_neg hlt]

/-- C3: `GetBackend` follows the DRR algorithm.  First conjunct: the loop
body's two cases — quantum at least `min_rate` subtracts `min_rate` and
returns that backend; otherwise the backend's rate is added to its quantum,
the index advances with wrap-around and the loop repeats (subject to the
`CHECK`).  Second and third conjuncts: a fresh `Update` over exactly one
backend of positive rate establishes `SingleBackendInv`, and under that
invariant every `GetBackend` call returns that backend and re-establishes
the invariant — so every call returns it, forever. -/
theorem drr_getBackend_follows_deficit_round_robin :
    (∀ (bs : List BackendRate) (minRate : ℚ) (fuel : Nat) (quanta : QMap)
        (idx i : Nat) (b : BackendRate) (q : ℚ),
      bs[idx]? = some b → lookupQ quanta b.nodeId = some q →
      (minRate ≤ q →
        getBackendGo bs minRate (fuel + 1) quanta idx i =
          some (b.nodeId, setQ quanta b.nodeId (q - minRate), idx, i)) ∧
      (¬ minRate ≤ q →
        getBackendGo bs minRate (fuel + 1) quanta idx i =
          if i ≤ bs.length then
            getBackendGo bs minRate fuel
              (setQ quanta b.nodeId (q + b.throughput))
              ((idx + 1) % bs.length) (i + 1)
          else none)) ∧
    (∀ (r : ModelRoute) (proto : ModelRouteProto) (b : BackendRate),
      r.backends = [] → r.backendQuanta = [] →
      proto.backendRate = [b] → 0 < b.throughput → b.throughput ≤ dblMax →
      SingleBackendInv (r.Update proto) b) ∧
    (∀ (r : ModelRoute) (b : BackendRate), SingleBackendInv r b →
      ∃ r', r.GetBackend = some (b.nodeId, r') ∧ SingleBackendInv r' b) := by
  refine ⟨?_, ?_, ?_⟩
  · intro bs minRate fuel quanta idx i b q hb hq
    exact ⟨getBackendGo_step_return bs minRate fuel quanta idx i b q hb hq,
      getBackendGo_step_advance bs minRate fuel quanta idx i b q hb hq⟩
  · intro r proto b hbs hqr hproto hpos hle
    refine ⟨?_, hpos, ?_, ?_, b.throughput, ?_, le_of_lt hpos⟩
    · show proto.backendRate = [b]
      exact hproto
    · show proto.backendRate.foldl (fun m x => stdMin m x.throughput) dblMax =
        b.throughput
      rw [hproto, List.foldl_cons, List.foldl_nil, stdMin]
      split
      · rfl
      · exact (le_antisymm hle (le_of_not_lt (by assumption))).symm
    · show (match proto.backendRate.findIdx?
          (fun x => x.nodeId == savedDrrBackendId r) with
        | some i => i
        | none => if proto.backendRate.isEmpty then 0
                  else r.currentDrrIndex % proto.backendRate.length) = 0
      rw [hproto]
      cases hfind : ([b].findIdx? (fun x => x.nodeId == savedDrrBackendId r)) with
      | none =>
        simp [Nat.mod_one]
      | some j =>
        show j = 0
        have := List.findIdx?_eq_some_iff_findIdx_eq.mp hfind
        have hj : j < 1 := by simpa using this.1
        omega
    · show (proto.backendRate.foldl
          (fun qm x => emplaceQ qm x.nodeId x.throughput) r.backendQuanta).filter
          (fun p => proto.backendRate.any (fun x => x.nodeId == p.1)) =
        [(b.nodeId, b.throughput)]
      rw [hproto, hqr, List.foldl_cons, List.foldl_nil]
      simp [emplaceQ, lookupQ]
  · intro r b hinv
    obtain ⟨hbs, hpos, hmin, hidx, q, hq, hqnn⟩ := hinv
    have hsq : ∀ v w : ℚ, setQ [(b.nodeId, v)] b.nodeId w = [(b.nodeId, w)] := by
      intro v w
      simp [setQ]
    have hlk : ∀ v : ℚ, lookupQ [(b.nodeId, v)] b.nodeId = some v := by
      intro v
      simp [lookupQ]
    have hb0 : ([b] : List BackendRate)[0]? = some b := rfl
    have hGB : r.GetBackend =
        (getBackendGo [b] b.throughput 3 [(b.nodeId, q)] 0 0).map
          (fun out => (out.1, { r with backendQuanta := out.2.1, currentDrrIndex := out.2.2.1 })) := by
      unfold ModelRoute.GetBackend
      rw [hbs, hmin, hidx, hq]
      rfl
    by_cases hge : b.throughput ≤ q
    · refine ⟨{ r with backendQuanta := [(b.nodeId, q - b.throughput)], currentDrrIndex := 0 }, ?_, ?_⟩
      · rw [hGB, show (3 : Nat) = 2 + 1 from rfl,
          getBackendGo_step_return [b] b.throughput 2 [(b.nodeId, q)] 0 0 b q
            hb0 (hlk q) hge, hsq]
        rfl
      · exact ⟨hbs, hpos, hmin, rfl, q - b.throughput, rfl, by linarith⟩
    · refine ⟨{ r with backendQuanta := [(b.nodeId, q + b.throughput - b.throughput)], currentDrrIndex := 0 }, ?_, ?_⟩
      · rw [hGB, show (3 : Nat) = 2 + 1 from rfl,
          getBackendGo_step_advance [b] b.throughput 2 [(b.nodeId, q)] 0 0 b q
            hb0 (hlk q) hge, if_pos (by simp : (0 : Nat) ≤ [b].length), hsq]
        rw [show ((0 + 1) % [b].length) = 0 from by simp,
          show (2 : Nat) = 1 + 1 from rfl,
          getBackendGo_step_return [b] b.throughput 1
            [(b.nodeId, q + b.throughput)] 0 1 b (q + b.throughput)
            hb0 (hlk _) (by linarith), hsq]
        rfl
      · exact ⟨hbs, hpos, hmin, rfl, q + b.throughput - b.throughput, rfl,
          by linarith⟩




/-- C3 witness: a one-backend route (rate 2, quantum 2) returns backend 1
and preserves the invariant. -/
theorem drr_getBackend_follows_deficit_round_robin_witness :
    SingleBackendInv ⟨"m", [⟨1, 2⟩], [(1, 2)], 0, 2, 2⟩ ⟨1, 2⟩ ∧
    ∃ r', (⟨"m", [⟨1, 2⟩], [(1, 2)], 0, 2, 2⟩ : ModelRoute).GetBackend =
      some ((⟨1, 2⟩ : BackendRate).nodeId, r') ∧ SingleBackendInv r' ⟨1, 2⟩ :=
  ⟨⟨rfl, by decide, rfl, rfl, 2, rfl, by decide⟩,
   drr_getBackend_follows_deficit_round_robin.2.2 _ _
     ⟨rfl, by decide, rfl, rfl, 2, rfl, by decide⟩⟩


end NexusLB
